import Mathlib

/-!
Verification of the decision engine of a cron-based DCA staking script
(dca_stake.py).  The embedding models the pure decision logic of the
source: candidate filtering and scoring over a whitelist, the liquidity
safety check, the network fallback and retry schedule of the connector,
and the orchestrator run loop with its exit-code contract and its
guaranteed connection release.  External collaborators (the chain RPC,
the wallet, the config file) are modelled by oracle values recorded in a
World structure; decimal amounts are modelled by rationals.
-/

set_option autoImplicit false

/-- Candidate subnet record as consumed by the script.  A field of value
none models an attribute whose float conversion raises in the source
(unparsable price, unavailable liquidity, non-numeric emission). -/
structure Subnet where
  netuid : Int
  subnet_name : String
  price : Option ℚ
  tao_in : Option ℚ
  tao_in_emission : Option ℚ
deriving DecidableEq, Repr

/-- Configuration record, mirroring the Config dataclass of the source. -/
structure Config where
  wallet_name : String
  validator_hotkey : String
  stake_amount : ℚ
  target_netuid : Option Int
  whitelist : List Int
  min_liquidity_ratio : ℚ
  network : String
  log_file : String
  dry_run : Bool
deriving DecidableEq, Repr

/-- Oracle outcomes of the external calls made by one run: whether the
connector succeeds, whether the wallet unlocks, the parsed balance (none
models a raised exception), the candidate list returned by all_subnets,
and the stake call result (none models a raised exception). -/
structure World where
  connect_ok : Bool
  unlock_ok : Bool
  balance : Option ℚ
  subnets : List Subnet
  stake_result : Option Bool
deriving DecidableEq, Repr

-- ===== candidate selection (select_best_from_whitelist) =====

/-- Filter of the whitelist selection loop: a candidate survives when its
netuid is whitelisted, its price parses and is positive, its liquidity
parses, and the liquidity is at least stake_amount times the minimum
liquidity ratio.  Mirrors the four continue guards of the source loop. -/
def survives (wl : List Int) (stake_amount min_ratio : ℚ) (s : Subnet) : Bool :=
  if s.netuid ∈ wl then
    match s.price with
    | none => false
    | some p =>
      if 0 < p then
        match s.tao_in with
        | none => false
        | some t => if t < stake_amount * min_ratio then false else true
      else false
  else false

/-- Score of a candidate: emission divided by price; 0 when the emission
attribute does not parse (the except branch of the source). -/
def subnetScore (s : Subnet) : ℚ :=
  match s.price, s.tao_in_emission with
  | some p, some e => e / p
  | _, _ => 0

/-- The running-best loop of select_best_from_whitelist: best and
best_score accumulators, replacement only on a strictly greater score. -/
def selectAux (wl : List Int) (a r : ℚ) :
    List Subnet → Option Subnet → ℚ → Option Subnet
  | [], best, _ => best
  | s :: rest, best, bestScore =>
    if survives wl a r s = true ∧ bestScore < subnetScore s then
      selectAux wl a r rest (some s) (subnetScore s)
    else
      selectAux wl a r rest best bestScore

/-- select_best_from_whitelist of the source: none models the
(None, "No eligible subnets in whitelist") return value. -/
def select_best_from_whitelist (wl : List Int) (a r : ℚ)
    (subnets : List Subnet) : Option Subnet :=
  selectAux wl a r subnets none 0

-- ===== liquidity validation (check_liquidity) =====

/-- Reason component of the check_liquidity result.  The source returns a
message string; the insufficient constructor carries the measured and the
required amounts that the source interpolates into its message. -/
inductive LiqReason where
  | unavailable : LiqReason
  | zeroLiquidity : LiqReason
  | insufficient : ℚ → ℚ → LiqReason
  | ok : LiqReason
deriving DecidableEq, Repr

/-- check_liquidity of the source: unreadable liquidity, then
non-positive liquidity, then the ratio threshold, else ok. -/
def check_liquidity (subnet : Subnet) (stake_amount min_ratio : ℚ) :
    Bool × ℚ × LiqReason :=
  match subnet.tao_in with
  | none => (false, 0, LiqReason.unavailable)
  | some tao_in_pool =>
    if tao_in_pool ≤ 0 then (false, tao_in_pool, LiqReason.zeroLiquidity)
    else
      if tao_in_pool < stake_amount * min_ratio then
        (false, tao_in_pool, LiqReason.insufficient tao_in_pool (stake_amount * min_ratio))
      else (true, tao_in_pool, LiqReason.ok)

-- ===== explicit-id resolution (get_subnet_by_netuid) =====

/-- get_subnet_by_netuid of the source: first candidate with the given
netuid, none when absent. -/
def get_subnet_by_netuid (subnets : List Subnet) (netuid : Int) : Option Subnet :=
  subnets.find? (fun s => s.netuid == netuid)

-- ===== orchestrator (run, main) =====

/-- Result of one run: the exit code and how many times the connection
close routine ran. -/
structure RunResult where
  exit : Nat
  closes : Nat
deriving DecidableEq, Repr

/-- Tail of the run after a target subnet is resolved: log the parsed
price (unparsable price is fatal), gate on check_liquidity (not ok is a
graceful skip), short-circuit on dry run, otherwise interpret the stake
call result (an exception or a false result is fatal). -/
def stake_phase (cfg : Config) (w : World) (s : Subnet) : Nat :=
  match s.price with
  | none => 1
  | some _ =>
    if (check_liquidity s cfg.stake_amount cfg.min_liquidity_ratio).1 = false then 0
    else if cfg.dry_run then 0
    else
      match w.stake_result with
      | none => 1
      | some b => if b then 0 else 1

/-- Body of the run between connection and the final close: wallet
unlock, balance check against stake_amount plus the 0.01 fee buffer,
target resolution (explicit netuid first, else non-empty whitelist, else
a configuration failure), then the stake phase. -/
def run_body (cfg : Config) (w : World) : Nat :=
  if w.unlock_ok = false then 1
  else
    match w.balance with
    | none => 1
    | some b =>
      if b < cfg.stake_amount + 1 / 100 then 1
      else
        match cfg.target_netuid with
        | some nid =>
          match get_subnet_by_netuid w.subnets nid with
          | none => 1
          | some s => stake_phase cfg w s
        | none =>
          match cfg.whitelist with
          | [] => 1
          | _ :: _ =>
            match select_best_from_whitelist cfg.whitelist cfg.stake_amount
                cfg.min_liquidity_ratio w.subnets with
            | none => 0
            | some s => stake_phase cfg w s

/-- run of the source: a failed connection returns 1 with nothing to
release; otherwise the body runs inside a try block whose finally clause
closes the connection exactly once on every path. -/
def run (cfg : Config) (w : World) : RunResult :=
  if w.connect_ok then ⟨run_body cfg w, 1⟩ else ⟨1, 0⟩

/-- Replace the dry_run flag of a configuration, modelling the CLI
override in main. -/
def apply_cli_dry (cfg : Config) (cli : Bool) : Config :=
  if cli then
    ⟨cfg.wallet_name, cfg.validator_hotkey, cfg.stake_amount, cfg.target_netuid,
      cfg.whitelist, cfg.min_liquidity_ratio, cfg.network, cfg.log_file, true⟩
  else cfg

/-- main of the source (named main_entry because Lean reserves main): a
config load failure exits 1 before any connection; otherwise the CLI
dry-run override is applied and the run exit code is returned. -/
def main_entry (loaded : Option Config) (cli_dry : Bool) (w : World) : Nat :=
  match loaded with
  | none => 1
  | some cfg => (run (apply_cli_dry cfg cli_dry) w).exit

/-- Copy of a configuration with the whitelist replaced, used to state
that a set explicit target makes the whitelist irrelevant. -/
def set_whitelist (cfg : Config) (wl : List Int) : Config :=
  ⟨cfg.wallet_name, cfg.validator_hotkey, cfg.stake_amount, cfg.target_netuid, wl,
    cfg.min_liquidity_ratio, cfg.network, cfg.log_file, cfg.dry_run⟩

/-- Success or graceful-skip condition of the run tail on a resolved
subnet: the price parses, and then either the liquidity gate fails (a
graceful skip), the run is a dry run, or the stake call reports
success. -/
def StakePhaseZero (cfg : Config) (w : World) (s : Subnet) : Prop :=
  (∃ p, s.price = some p) ∧
    ((check_liquidity s cfg.stake_amount cfg.min_liquidity_ratio).1 = false ∨
      cfg.dry_run = true ∨ w.stake_result = some true)

/-- Success or graceful-skip condition of a whole run: the connection and
the wallet unlock succeed, the balance reads and covers the stake plus
the fee buffer, and then either the explicit target resolves and its
stake phase ends in 0, or the run is in whitelist mode and the selection
returns nothing (skip) or returns a candidate whose stake phase ends
in 0. -/
def ExitZeroSpec (cfg : Config) (w : World) : Prop :=
  w.connect_ok = true ∧ w.unlock_ok = true ∧
    ∃ b, w.balance = some b ∧ cfg.stake_amount + 1 / 100 ≤ b ∧
      ((∃ nid s, cfg.target_netuid = some nid ∧
          get_subnet_by_netuid w.subnets nid = some s ∧ StakePhaseZero cfg w s) ∨
        (cfg.target_netuid = none ∧ cfg.whitelist ≠ [] ∧
          (select_best_from_whitelist cfg.whitelist cfg.stake_amount
              cfg.min_liquidity_ratio w.subnets = none ∨
            ∃ s, select_best_from_whitelist cfg.whitelist cfg.stake_amount
                cfg.min_liquidity_ratio w.subnets = some s ∧ StakePhaseZero cfg w s)))

-- ===== connector (FALLBACK_NETWORKS, connect_with_retry, connect_to_bittensor) =====

/-- Fixed fallback network list of the source. -/
def FALLBACK_NETWORKS : List String := ["finney", "subvortex", "archive"]

/-- Ordered network list tried by connect_to_bittensor: the primary
network, then the fallback list minus any duplicate of the primary. -/
def networks_to_try (primary : String) : List String :=
  [primary] ++ FALLBACK_NETWORKS.filter (fun n => n ≠ primary)

/-- One bounded retry loop on a single network, mirroring the tenacity
decorator stop_after_attempt bound on connect_with_retry.  The oracle f
gives the outcome of attempt k on this network; a failed liveness call is
a failed attempt.  Returns the number of attempts made and either success
or the error of the last attempt; fuel counts the attempts still allowed
after the current one. -/
def tryConn (f : Nat → Except String Unit) : Nat → Nat → Nat × Except String Unit
  | k, 0 => (1, f k)
  | k, fuel + 1 =>
    match f k with
    | Except.ok _ => (1, Except.ok ())
    | Except.error _ =>
      let rest := tryConn f (k + 1) fuel
      (rest.1 + 1, rest.2)

/-- connect_with_retry of the source: at most 3 attempts on one network. -/
def connect_with_retry (f : Nat → Except String Unit) : Nat × Except String Unit :=
  tryConn f 0 2

/-- Fallback loop of connect_to_bittensor: try each network in order,
recording how many attempts each tried network consumed; on success
return the network name, after exhausting the list raise a connection
error carrying the last underlying error. -/
def connectGo (f : String → Nat → Except String Unit) :
    List String → String → List (String × Nat) × Except String String
  | [], last => ([], Except.error last)
  | n :: rest, _ =>
    match connect_with_retry (f n) with
    | (c, Except.ok _) => ([(n, c)], Except.ok n)
    | (c, Except.error e) =>
      let r := connectGo f rest e
      ((n, c) :: r.1, r.2)

/-- connect_to_bittensor of the source, instrumented with the attempt
trace: the list of (network, attempts used) pairs in order, and the
overall outcome. -/
def connect_to_bittensor (f : String → Nat → Except String Unit)
    (primary : String) : List (String × Nat) × Except String String :=
  connectGo f (networks_to_try primary) ""

-- ===== concrete fixtures used by witnesses and counterexamples =====

/-- Whitelisted candidate with zero emission: survives every filter of
the selection loop but scores 0. -/
def subnetZeroEmission : Subnet := ⟨1, "Z", some 1, some 100, some 0⟩

/-- Candidate of score 2 with netuid 1. -/
def subnetA : Subnet := ⟨1, "A", some 1, some 100, some 2⟩

/-- Candidate of score 2 with netuid 2, tying with subnetA. -/
def subnetB : Subnet := ⟨2, "B", some 1, some 100, some 2⟩

/-- Candidate of score 9 with netuid 3, beating both tied candidates. -/
def subnetC : Subnet := ⟨3, "C", some 1, some 100, some 9⟩

/-- Candidate with liquidity 5, below the requirement 10 of the fixture
parameters. -/
def subnetLow : Subnet := ⟨4, "L", some 1, some 5, some 1⟩

/-- Explicit target candidate with netuid 5. -/
def subnetTarget : Subnet := ⟨5, "T", some 1, some 100, some 1⟩

/-- Configuration with both an explicit target and a non-empty whitelist. -/
def cfgBoth : Config := ⟨"w", "hk", 1, some 5, [3], 10, "finney", "log", true⟩

/-- Configuration with neither an explicit target nor a whitelist. -/
def cfgNeither : Config := ⟨"w", "hk", 1, none, [], 10, "finney", "log", true⟩

/-- Whitelist-mode configuration over netuids 1 and 2. -/
def cfgWhitelist : Config := ⟨"w", "hk", 1, none, [1, 2], 10, "finney", "log", false⟩

/-- World where every external call succeeds and the target subnet
exists. -/
def worldGood : World := ⟨true, true, some 10, [subnetTarget], some true⟩

/-- World where every external call succeeds and the candidate list holds
the two tied candidates. -/
def worldAB : World := ⟨true, true, some 10, [subnetA, subnetB], some true⟩

/-- Connection oracle on which every attempt fails with the same error. -/
def alwaysDown : String → Nat → Except String Unit := fun _ _ => Except.error "down"

-- ===== selection lemmas =====

/-- Unfolding of the survives filter into its four conditions. -/
lemma survives_iff (wl : List Int) (a r : ℚ) (s : Subnet) :
    survives wl a r s = true ↔
      s.netuid ∈ wl ∧ ∃ p, s.price = some p ∧ 0 < p ∧
        ∃ t, s.tao_in = some t ∧ a * r ≤ t := by
  unfold survives
  by_cases hm : s.netuid ∈ wl
  · simp only [hm, if_true]
    cases hp : s.price with
    | none => simp
    | some p =>
      by_cases hpp : 0 < p
      · simp only [hpp, if_true]
        cases ht : s.tao_in with
        | none => simp
        | some t =>
          by_cases hlt : t < a * r
          · simp [hlt, not_le.mpr hlt]
          · simp only [hlt, if_false]
            simp [not_lt.mp hlt, hpp]
      · simp [hpp]
  · simp [hm]

/-- Once the accumulator holds a candidate it is never dropped. -/
lemma selectAux_some_isSome (wl : List Int) (a r : ℚ) :
    ∀ (l : List Subnet) (b : Subnet) (bs : ℚ),
      (selectAux wl a r l (some b) bs).isSome = true := by
  intro l
  induction l with
  | nil => intro b bs; rfl
  | cons s rest ih =>
    intro b bs
    unfold selectAux
    by_cases h : survives wl a r s = true ∧ bs < subnetScore s
    · simp only [h, if_true]; exact ih s (subnetScore s)
    · simp only [h, if_false]; exact ih b bs

/-- Characterisation of an empty result of the running-best loop started
with an empty accumulator: no element of the remaining list survives with
a score above the running best score. -/
lemma selectAux_none_iff (wl : List Int) (a r : ℚ) :
    ∀ (l : List Subnet) (bs : ℚ),
      selectAux wl a r l none bs = none ↔
        ∀ s ∈ l, ¬(survives wl a r s = true ∧ bs < subnetScore s) := by
  intro l
  induction l with
  | nil => intro bs; simp [selectAux]
  | cons s rest ih =>
    intro bs
    unfold selectAux
    by_cases h : survives wl a r s = true ∧ bs < subnetScore s
    · rw [if_pos h]
      constructor
      · intro hres
        have := selectAux_some_isSome wl a r rest s (subnetScore s)
        rw [hres] at this
        exact absurd this (by simp)
      · intro hall
        exact absurd h (hall s (List.mem_cons_self s rest))
    · rw [if_neg h]
      rw [ih bs]
      constructor
      · intro hall t ht
        rcases List.mem_cons.mp ht with rfl | ht'
        · exact h
        · exact hall t ht'
      · intro hall t ht
        exact hall t (List.mem_cons_of_mem s ht)

/-- Decomposition invariant of the running-best loop: a returned
candidate is either the incoming accumulator, with nothing in the list
beating the running score, or it occurs in the list, survives, strictly
beats the incoming score and every surviving element before it, and is
not strictly beaten by any surviving element after it. -/
lemma selectAux_some_spec (wl : List Int) (a r : ℚ) :
    ∀ (l : List Subnet) (best : Option Subnet) (bs : ℚ) (c : Subnet),
      selectAux wl a r l best bs = some c →
        (best = some c ∧
          ∀ s ∈ l, survives wl a r s = true → subnetScore s ≤ bs) ∨
        (∃ xs ys, l = xs ++ c :: ys ∧ survives wl a r c = true ∧
          bs < subnetScore c ∧
          (∀ s ∈ xs, survives wl a r s = true → subnetScore s < subnetScore c) ∧
          (∀ s ∈ ys, survives wl a r s = true → subnetScore s ≤ subnetScore c)) := by
  intro l
  induction l with
  | nil =>
    intro best bs c h
    left
    exact ⟨h, by intro s hs; exact absurd hs (List.not_mem_nil s)⟩
  | cons s rest ih =>
    intro best bs c h
    unfold selectAux at h
    by_cases hc : survives wl a r s = true ∧ bs < subnetScore s
    · rw [if_pos hc] at h
      rcases ih (some s) (subnetScore s) c h with ⟨hbest, hall⟩ | ⟨xs, ys, heq, hsv, hgt, hxs, hys⟩
      · right
        have hsc : s = c := Option.some.inj hbest
        subst hsc
        refine ⟨[], rest, rfl, hc.1, hc.2, ?_, hall⟩
        intro t ht; exact absurd ht (List.not_mem_nil t)
      · right
        refine ⟨s :: xs, ys, by simp [heq], hsv, lt_trans hc.2 hgt, ?_, hys⟩
        intro t ht hts
        rcases List.mem_cons.mp ht with rfl | ht'
        · exact hgt
        · exact hxs t ht' hts
    · rw [if_neg hc] at h
      rcases ih best bs c h with ⟨hbest, hall⟩ | ⟨xs, ys, heq, hsv, hgt, hxs, hys⟩
      · left
        refine ⟨hbest, ?_⟩
        intro t ht hts
        rcases List.mem_cons.mp ht with rfl | ht'
        · by_contra hgt'
          exact hc ⟨hts, lt_of_not_le hgt'⟩
        · exact hall t ht' hts
      · right
        refine ⟨s :: xs, ys, by simp [heq], hsv, hgt, ?_, hys⟩
        intro t ht hts
        rcases List.mem_cons.mp ht with rfl | ht'
        · by_cases hst : bs < subnetScore t
          · exact absurd ⟨hts, hst⟩ hc
          · exact lt_of_le_of_lt (not_lt.mp hst) hgt
        · exact hxs t ht' hts

/-- Properties of a successful whitelist selection: the chosen candidate
occurs in the list, survives the filters, has a strictly positive score,
and its score is maximal among surviving candidates. -/
lemma select_some_spec (wl : List Int) (a r : ℚ) (l : List Subnet) (c : Subnet)
    (h : select_best_from_whitelist wl a r l = some c) :
    c ∈ l ∧ survives wl a r c = true ∧ 0 < subnetScore c ∧
      ∀ s ∈ l, survives wl a r s = true → subnetScore s ≤ subnetScore c := by
  rcases selectAux_some_spec wl a r l none 0 c h with ⟨hbest, _⟩ | ⟨xs, ys, heq, hsv, hgt, hxs, hys⟩
  · exact absurd hbest (by simp)
  · subst heq
    refine ⟨List.mem_append.mpr (Or.inr (List.mem_cons_self c ys)), hsv, hgt, ?_⟩
    intro s hs hss
    rcases List.mem_append.mp hs with hxs' | hcys
    · exact le_of_lt (hxs s hxs' hss)
    · rcases List.mem_cons.mp hcys with rfl | hys'
      · exact le_refl _
      · exact hys s hys' hss

/-- The whitelist selection returns none exactly when no candidate both
survives the filters and has a strictly positive score. -/
lemma select_none_iff (wl : List Int) (a r : ℚ) (l : List Subnet) :
    select_best_from_whitelist wl a r l = none ↔
      ∀ s ∈ l, ¬(survives wl a r s = true ∧ 0 < subnetScore s) :=
  selectAux_none_iff wl a r l 0

-- ===== connector lemmas =====

/-- The bounded retry loop makes at most fuel plus one attempts. -/
lemma tryConn_count_le (f : Nat → Except String Unit) :
    ∀ (fuel k : Nat), (tryConn f k fuel).1 ≤ fuel + 1 := by
  intro fuel
  induction fuel with
  | zero => intro k; simp [tryConn]
  | succ n ih =>
    intro k
    unfold tryConn
    cases f k with
    | ok u => simp
    | error e => simpa using Nat.add_le_add_right (ih (k + 1)) 1

/-- When the bounded retry loop fails it has used every allowed attempt
and reports the error of the last attempt. -/
lemma tryConn_error_spec (f : Nat → Except String Unit) :
    ∀ (fuel k : Nat) (e : String), (tryConn f k fuel).2 = Except.error e →
      (tryConn f k fuel).1 = fuel + 1 ∧ f (k + fuel) = Except.error e := by
  intro fuel
  induction fuel with
  | zero => intro k e h; simpa [tryConn] using h
  | succ n ih =>
    intro k e h
    unfold tryConn at h ⊢
    cases hf : f k with
    | ok u => rw [hf] at h; exact absurd h (by simp)
    | error e0 =>
      rw [hf] at h
      simp only at h
      rcases ih (k + 1) e h with ⟨hc, hl⟩
      constructor
      · simp [hc]
      · have : k + 1 + n = k + (n + 1) := by omega
        rw [this] at hl
        exact hl

/-- The bounded retry loop fails exactly when every allowed attempt
fails. -/
lemma tryConn_fails_iff (f : Nat → Except String Unit) :
    ∀ (fuel k : Nat),
      (∃ e, (tryConn f k fuel).2 = Except.error e) ↔
        ∀ j ≤ fuel, ∃ e, f (k + j) = Except.error e := by
  intro fuel
  induction fuel with
  | zero =>
    intro k
    simp only [tryConn]
    constructor
    · intro ⟨e, he⟩ j hj
      interval_cases j
      exact ⟨e, by simpa using he⟩
    · intro h
      rcases h 0 (le_refl 0) with ⟨e, he⟩
      exact ⟨e, by simpa using he⟩
  | succ n ih =>
    intro k
    unfold tryConn
    cases hf : f k with
    | ok u =>
      simp only
      constructor
      · intro ⟨e, he⟩; exact absurd he (by simp)
      · intro h
        rcases h 0 (Nat.zero_le _) with ⟨e, he⟩
        rw [Nat.add_zero] at he
        rw [hf] at he
        exact absurd he (by simp)
    | error e0 =>
      simp only
      rw [ih (k + 1)]
      constructor
      · intro h j hj
        cases j with
        | zero => exact ⟨e0, by simpa using hf⟩
        | succ j0 =>
          have hj0 : j0 ≤ n := by omega
          rcases h j0 hj0 with ⟨e, he⟩
          refine ⟨e, ?_⟩
          have heq : k + (j0 + 1) = k + 1 + j0 := by omega
          rw [heq]
          exact he
      · intro h j hj
        have hj1 : j + 1 ≤ n + 1 := by omega
        rcases h (j + 1) hj1 with ⟨e, he⟩
        refine ⟨e, ?_⟩
        have heq : k + 1 + j = k + (j + 1) := by omega
        rw [heq]
        exact he

/-- Every tried network in the fallback loop consumed at most 3
attempts. -/
lemma connectGo_count_le (f : String → Nat → Except String Unit) :
    ∀ (ns : List String) (last : String),
      ∀ p ∈ (connectGo f ns last).1, p.2 ≤ 3 := by
  intro ns
  induction ns with
  | nil => intro last p hp; exact absurd hp (List.not_mem_nil p)
  | cons n rest ih =>
    intro last p hp
    unfold connectGo at hp
    cases hr : connect_with_retry (f n) with
    | mk c res =>
      cases res with
      | ok u =>
        rw [hr] at hp
        simp only [List.mem_singleton] at hp
        subst hp
        have := tryConn_count_le (f n) 2 0
        rw [show (tryConn (f n) 0 2).1 = c from congrArg Prod.fst hr] at this
        exact this
      | error e =>
        rw [hr] at hp
        simp only [List.mem_cons] at hp
        rcases hp with rfl | hp'
        · have := tryConn_count_le (f n) 2 0
          rw [show (tryConn (f n) 0 2).1 = c from congrArg Prod.fst hr] at this
          exact this
        · exact ih e p hp'

/-- The fallback loop fails exactly when the bounded retry fails on every
network of the list. -/
lemma connectGo_fails_iff (f : String → Nat → Except String Unit) :
    ∀ (ns : List String) (last : String),
      (∃ e, (connectGo f ns last).2 = Except.error e) ↔
        ∀ n ∈ ns, ∃ e, (connect_with_retry (f n)).2 = Except.error e := by
  intro ns
  induction ns with
  | nil => intro last; simp [connectGo]
  | cons n rest ih =>
    intro last
    unfold connectGo
    cases hr : connect_with_retry (f n) with
    | mk c res =>
      cases res with
      | ok u =>
        simp only
        constructor
        · intro ⟨e, he⟩; exact absurd he (by simp)
        · intro h
          rcases h n (List.mem_cons_self n rest) with ⟨e, he⟩
          rw [hr] at he
          exact absurd he (by simp)
      | error e0 =>
        simp only
        rw [ih e0]
        constructor
        · intro h t ht
          rcases List.mem_cons.mp ht with rfl | ht'
          · exact ⟨e0, by rw [hr]⟩
          · exact h t ht'
        · intro h t ht
          exact h t (List.mem_cons_of_mem n ht)

/-- When the fallback loop fails on a non-empty network list, the trace
shows 3 attempts for every network and the reported error is the error of
the last attempt on the last network. -/
lemma connectGo_error_spec (f : String → Nat → Except String Unit) :
    ∀ (ns : List String) (last : String) (e : String),
      (connectGo f ns last).2 = Except.error e →
        (connectGo f ns last).1 = ns.map (fun n => (n, 3)) ∧
          (ns = [] → e = last) ∧
          (∀ m, ns.getLast? = some m → f m 2 = Except.error e) := by
  intro ns
  induction ns with
  | nil =>
    intro last e h
    refine ⟨rfl, ?_, ?_⟩
    · intro _; simpa [connectGo] using h.symm
    · intro m hm; exact absurd hm (by simp)
  | cons n rest ih =>
    intro last e h
    unfold connectGo at h ⊢
    cases hr : connect_with_retry (f n) with
    | mk c res =>
      cases res with
      | ok u => rw [hr] at h; exact absurd h (by simp)
      | error e0 =>
        rw [hr] at h
        simp only at h
        rcases ih e0 e h with ⟨htr, hnil, hlast⟩
        have hc3 : c = 3 := by
          have := tryConn_error_spec (f n) 2 0 e0 (by
            rw [show tryConn (f n) 0 2 = (c, Except.error e0) from hr])
          rw [show tryConn (f n) 0 2 = (c, Except.error e0) from hr] at this
          simpa using this.1
        refine ⟨?_, ?_, ?_⟩
        · simp only [htr, hc3, List.map]
        · intro hfalse; exact absurd hfalse (by simp)
        · intro m hm
          cases rest with
          | nil =>
            have hmn : n = m := by simpa [List.getLast?] using hm
            have he0 : e = e0 := hnil rfl
            rw [← hmn, he0]
            have hend := tryConn_error_spec (f n) 2 0 e0 (by
              rw [show tryConn (f n) 0 2 = (c, Except.error e0) from hr])
            simpa using hend.2
          | cons r0 rrest =>
            apply hlast
            rw [List.getLast?_cons_cons] at hm
            exact hm

-- ===== orchestrator lemmas =====

/-- The stake phase returns 0 exactly when the price parses and either
the liquidity gate fails (graceful skip), the run is a dry run, or the
stake call reports success. -/
lemma stake_phase_zero_iff (cfg : Config) (w : World) (s : Subnet) :
    stake_phase cfg w s = 0 ↔ StakePhaseZero cfg w s := by
  unfold stake_phase StakePhaseZero
  cases hp : s.price with
  | none => simp
  | some p =>
    simp only
    by_cases hl : (check_liquidity s cfg.stake_amount cfg.min_liquidity_ratio).1 = false
    · simp [hl]
    · rw [if_neg hl]
      by_cases hd : cfg.dry_run
      · simp [hd, hl]
      · simp only [hd, if_false]
        cases hs : w.stake_result with
        | none => simp [hl, hd, hs]
        | some b => cases b <;> simp [hl, hd, hs]

/-- The stake phase only returns 0 or 1. -/
lemma stake_phase_le_one (cfg : Config) (w : World) (s : Subnet) :
    stake_phase cfg w s ≤ 1 := by
  unfold stake_phase
  repeat' split
  all_goals omega

/-- The run body only returns 0 or 1. -/
lemma run_body_le_one (cfg : Config) (w : World) : run_body cfg w ≤ 1 := by
  unfold run_body
  repeat' split
  all_goals first
    | omega
    | exact stake_phase_le_one cfg w _

/-- The run body returns 0 exactly when the unlock, balance, resolution
and stake phases reach a success or graceful-skip outcome. -/
lemma run_body_zero_iff (cfg : Config) (w : World) :
    run_body cfg w = 0 ↔
      (w.unlock_ok = true ∧
        ∃ b, w.balance = some b ∧ cfg.stake_amount + 1 / 100 ≤ b ∧
          ((∃ nid s, cfg.target_netuid = some nid ∧
              get_subnet_by_netuid w.subnets nid = some s ∧ StakePhaseZero cfg w s) ∨
            (cfg.target_netuid = none ∧ cfg.whitelist ≠ [] ∧
              (select_best_from_whitelist cfg.whitelist cfg.stake_amount
                  cfg.min_liquidity_ratio w.subnets = none ∨
                ∃ s, select_best_from_whitelist cfg.whitelist cfg.stake_amount
                    cfg.min_liquidity_ratio w.subnets = some s ∧
                  StakePhaseZero cfg w s)))) := by
  unfold run_body
  by_cases hu : w.unlock_ok = false
  · rw [if_pos hu]
    simp [hu]
  · rw [if_neg hu]
    have hu' : w.unlock_ok = true := by
      revert hu; cases w.unlock_ok <;> simp
    simp only [hu', true_and]
    cases hb : w.balance with
    | none => simp
    | some b =>
      simp only [Option.some.injEq, exists_eq_left']
      by_cases hlow : b < cfg.stake_amount + 1 / 100
      · rw [if_pos hlow]
        constructor
        · intro h; exact absurd h one_ne_zero
        · rintro ⟨hle, -⟩; exact absurd hle (not_le.mpr hlow)
      · rw [if_neg hlow]
        have hge : cfg.stake_amount + 1 / 100 ≤ b := not_lt.mp hlow
        simp only [hge, true_and]
        cases ht : cfg.target_netuid with
        | some nid =>
          simp only [Option.some.injEq, reduceCtorEq, false_and, and_false, or_false,
            exists_and_left, exists_eq_left']
          cases hf : get_subnet_by_netuid w.subnets nid with
          | none =>
            constructor
            · intro h; exact absurd h one_ne_zero
            · rintro ⟨s, hs, -⟩
              exact absurd hs (by simp)
          | some s =>
            constructor
            · intro h
              exact ⟨s, rfl, (stake_phase_zero_iff cfg w s).mp h⟩
            · rintro ⟨s0, hs0, hsp⟩
              rw [Option.some.injEq] at hs0
              subst hs0
              exact (stake_phase_zero_iff cfg w s).mpr hsp
        | none =>
          simp only [reduceCtorEq, false_and, exists_const, exists_false, false_or, true_and]
          cases hw : cfg.whitelist with
          | nil =>
            constructor
            · intro h; exact absurd h one_ne_zero
            · rintro ⟨hne, -⟩; exact absurd rfl hne
          | cons x xs =>
            simp only [ne_eq, reduceCtorEq, not_false_iff, true_and]
            cases hs : select_best_from_whitelist (x :: xs) cfg.stake_amount
                cfg.min_liquidity_ratio w.subnets with
            | none => simp
            | some s =>
              simp only [reduceCtorEq, false_or, Option.some.injEq, exists_eq_left']
              exact stake_phase_zero_iff cfg w s

/-- The run exit code is 0 exactly when the success or graceful-skip
condition holds. -/
lemma run_exit_zero_iff (cfg : Config) (w : World) :
    (run cfg w).exit = 0 ↔ ExitZeroSpec cfg w := by
  unfold run ExitZeroSpec
  by_cases hco : w.connect_ok = true
  · rw [if_pos hco]
    simp only [hco, true_and]
    exact run_body_zero_iff cfg w
  · rw [if_neg hco]
    simp [hco]

/-- The run exit code is 0 or 1. -/
lemma run_exit_le_one (cfg : Config) (w : World) : (run cfg w).exit ≤ 1 := by
  unfold run
  split
  · exact run_body_le_one cfg w
  · exact le_refl 1

/-- With an explicit target set, the whitelist never influences the run. -/
lemma run_target_ignores_whitelist (cfg : Config) (w : World) (nid : Int)
    (h : cfg.target_netuid = some nid) (wl : List Int) :
    run (set_whitelist cfg wl) w = run cfg w := by
  unfold run run_body stake_phase set_whitelist
  simp only [h]

-- ===== claim theorems =====

/-- C1 counterexample: the candidate subnetZeroEmission survives all four
filters of select_best_from_whitelist, yet the function returns the
no-eligible-candidate outcome, because the running best score starts at 0
and is only replaced on a strictly greater score. -/
theorem select_zero_score_counterexample :
    survives [1] 1 10 subnetZeroEmission = true ∧
      select_best_from_whitelist [1] 1 10 [subnetZeroEmission] = none := by
  constructor
  · norm_num [survives, subnetZeroEmission]
  · norm_num [select_best_from_whitelist, selectAux, survives, subnetScore,
      subnetZeroEmission]

/-- C1 (amended): select_best_from_whitelist returns the no-eligible
outcome exactly when no candidate both survives the four filters and has
a strictly positive score; any returned candidate is a surviving member
of the input with strictly positive score. -/
theorem select_none_iff_no_positive_survivor (wl : List Int) (a r : ℚ)
    (l : List Subnet) :
    (select_best_from_whitelist wl a r l = none ↔
      ∀ s ∈ l, ¬(survives wl a r s = true ∧ 0 < subnetScore s)) ∧
    (∀ c, select_best_from_whitelist wl a r l = some c →
      c ∈ l ∧ survives wl a r c = true ∧ 0 < subnetScore c) :=
  ⟨select_none_iff wl a r l, fun c h =>
    ⟨(select_some_spec wl a r l c h).1, (select_some_spec wl a r l c h).2.1,
      (select_some_spec wl a r l c h).2.2.1⟩⟩

/-- C1 witness: the amended theorem applied to a concrete list where a
positive-score survivor is present and returned. -/
theorem select_none_iff_no_positive_survivor_witness :
    subnetA ∈ [subnetZeroEmission, subnetA] ∧
      survives [1] 1 10 subnetA = true ∧ 0 < subnetScore subnetA :=
  (select_none_iff_no_positive_survivor [1] 1 10 [subnetZeroEmission, subnetA]).2
    subnetA (by norm_num [select_best_from_whitelist, selectAux, survives,
      subnetScore, subnetZeroEmission, subnetA])

/-- C2 counterexample: with both an explicit target and a non-empty
whitelist configured, the run does not fail; it proceeds in explicit
target mode and here exits 0. -/
theorem run_both_modes_counterexample :
    cfgBoth.target_netuid = some 5 ∧ cfgBoth.whitelist ≠ [] ∧
      (run cfgBoth worldGood).exit = 0 :=
  ⟨rfl, by decide, by
    norm_num [run, run_body, stake_phase, check_liquidity, get_subnet_by_netuid,
      List.find?, cfgBoth, worldGood, subnetTarget]⟩

/-- C2 (amended): when neither the explicit target nor a non-empty
whitelist is configured the run exits 1; when the explicit target is set,
the whitelist has no influence at all on the run (explicit target mode
takes precedence), so both-configured is not a failure. -/
theorem run_mode_precedence (cfg : Config) (w : World) :
    (cfg.target_netuid = none → cfg.whitelist = [] → (run cfg w).exit = 1) ∧
    (∀ nid wl, cfg.target_netuid = some nid →
      run (set_whitelist cfg wl) w = run cfg w) := by
  constructor
  · intro ht hw
    have hz : ¬(run cfg w).exit = 0 := by
      rw [run_exit_zero_iff]
      rintro ⟨-, -, b, -, -, hres⟩
      rcases hres with ⟨nid, s, hnid, -, -⟩ | ⟨-, hne, -⟩
      · rw [ht] at hnid; exact Option.noConfusion hnid
      · exact hne hw
    have hle := run_exit_le_one cfg w
    omega
  · intro nid wl h
    exact run_target_ignores_whitelist cfg w nid h wl

/-- C2 witness: the amended theorem applied to the neither-configured
fixture and to the both-configured fixture. -/
theorem run_mode_precedence_witness :
    (run cfgNeither worldGood).exit = 1 ∧
      run (set_whitelist cfgBoth [1, 2]) worldGood = run cfgBoth worldGood :=
  ⟨(run_mode_precedence cfgNeither worldGood).1 rfl rfl,
    (run_mode_precedence cfgBoth worldGood).2 5 [1, 2] rfl⟩

/-- C3 counterexample: two whitelisted candidates with equal positive
score; on one iteration order the first is chosen, on the reversed order
the second is chosen, so the chosen candidate is not permutation
invariant. -/
theorem select_order_dependent_counterexample :
    List.Perm [subnetA, subnetB] [subnetB, subnetA] ∧
      select_best_from_whitelist [1, 2] 1 10 [subnetA, subnetB] = some subnetA ∧
      select_best_from_whitelist [1, 2] 1 10 [subnetB, subnetA] = some subnetB ∧
      subnetA ≠ subnetB :=
  ⟨List.Perm.swap subnetB subnetA [],
    by norm_num [select_best_from_whitelist, selectAux, survives, subnetScore,
      subnetA, subnetB],
    by norm_num [select_best_from_whitelist, selectAux, survives, subnetScore,
      subnetA, subnetB],
    by simp [subnetA, subnetB]⟩

/-- C3 (amended): under any permutation of the candidate list the
whitelist selection yields the no-eligible outcome on one order exactly
when it does on the other, and any two chosen candidates have equal
score; the identical candidate is only guaranteed when the maximal
positive score is uniquely attained. -/
theorem select_perm_score_invariant (wl : List Int) (a r : ℚ)
    (l l' : List Subnet) (h : List.Perm l l') :
    (select_best_from_whitelist wl a r l = none ↔
      select_best_from_whitelist wl a r l' = none) ∧
    (∀ c c', select_best_from_whitelist wl a r l = some c →
      select_best_from_whitelist wl a r l' = some c' →
      subnetScore c = subnetScore c') := by
  constructor
  · rw [select_none_iff, select_none_iff]
    constructor
    · intro hall s hs; exact hall s (h.mem_iff.mpr hs)
    · intro hall s hs; exact hall s (h.mem_iff.mp hs)
  · intro c c' hc hc'
    rcases select_some_spec wl a r l c hc with ⟨hmem, hsv, -, hmax⟩
    rcases select_some_spec wl a r l' c' hc' with ⟨hmem', hsv', -, hmax'⟩
    exact le_antisymm (hmax' c (h.mem_iff.mp hmem) hsv)
      (hmax c' (h.mem_iff.mpr hmem') hsv')

/-- C3 witness: the amended theorem applied to the two tied candidates
under the swap permutation. -/
theorem select_perm_score_invariant_witness :
    subnetScore subnetA = subnetScore subnetB :=
  (select_perm_score_invariant [1, 2] 1 10 [subnetA, subnetB] [subnetB, subnetA]
    (List.Perm.swap subnetB subnetA [])).2 subnetA subnetB
    (by norm_num [select_best_from_whitelist, selectAux, survives, subnetScore,
      subnetA, subnetB])
    (by norm_num [select_best_from_whitelist, selectAux, survives, subnetScore,
      subnetA, subnetB])

/-- C4: the chosen candidate of the whitelist selection strictly beats
the score of every surviving candidate that appears before it, and is not
strictly beaten by any surviving candidate after it: the incumbent best
is replaced only on a strictly greater score, so on equal scores the
earliest-seen candidate wins. -/
theorem select_tiebreak_first_wins (wl : List Int) (a r : ℚ) (l : List Subnet)
    (c : Subnet) (h : select_best_from_whitelist wl a r l = some c) :
    ∃ xs ys, l = xs ++ c :: ys ∧
      (∀ d ∈ xs, survives wl a r d = true → subnetScore d < subnetScore c) ∧
      (∀ d ∈ ys, survives wl a r d = true → subnetScore d ≤ subnetScore c) := by
  rcases selectAux_some_spec wl a r l none 0 c h with
    ⟨hbest, -⟩ | ⟨xs, ys, heq, -, -, hxs, hys⟩
  · exact absurd hbest (by simp)
  · exact ⟨xs, ys, heq, hxs, hys⟩

/-- C4 witness: among the two tied surviving candidates the selection
returns the first, and the theorem decomposes the list around it. -/
theorem select_tiebreak_first_wins_witness :
    ∃ xs ys, [subnetA, subnetB] = xs ++ subnetA :: ys ∧
      (∀ d ∈ xs, survives [1, 2] 1 10 d = true → subnetScore d < subnetScore subnetA) ∧
      (∀ d ∈ ys, survives [1, 2] 1 10 d = true → subnetScore d ≤ subnetScore subnetA) :=
  select_tiebreak_first_wins [1, 2] 1 10 [subnetA, subnetB] subnetA
    (by norm_num [select_best_from_whitelist, selectAux, survives, subnetScore,
      subnetA, subnetB])

/-- C5: the process exit code is 0 exactly for a success or graceful-skip
outcome (whitelist no-eligible skip, failed liquidity check skip, dry
run, or a successful stake), the exit code never exceeds 1, and a config
load failure exits 1; hence every fatal condition (connection, wallet,
balance, resolution, price, execution failures) exits 1. -/
theorem exit_code_contract (cfg : Config) (cli : Bool) (w : World) :
    main_entry none cli w = 1 ∧
      (main_entry (some cfg) cli w = 0 ↔ ExitZeroSpec (apply_cli_dry cfg cli) w) ∧
      main_entry (some cfg) cli w ≤ 1 :=
  ⟨rfl, run_exit_zero_iff (apply_cli_dry cfg cli) w,
    run_exit_le_one (apply_cli_dry cfg cli) w⟩

/-- C5 witness: the contract applied to a concrete dry run that exits 0. -/
theorem exit_code_contract_witness :
    main_entry (some cfgBoth) false worldGood = 0 :=
  (exit_code_contract cfgBoth false worldGood).2.1.mpr
    ⟨rfl, rfl, 10, rfl, by norm_num [apply_cli_dry, cfgBoth],
      Or.inl ⟨5, subnetTarget, rfl, rfl, ⟨1, rfl⟩, Or.inr (Or.inl rfl)⟩⟩

/-- C6: check_liquidity applies its rules in order: unreadable liquidity
gives not-ok with the unavailable reason, non-positive liquidity gives
not-ok with the zero-liquidity reason, liquidity below stake times ratio
gives not-ok with a reason carrying the measured and the required value,
else ok; and it is pure, two calls on identical inputs agree. -/
theorem check_liquidity_rules (s : Subnet) (a r : ℚ) :
    (s.tao_in = none →
      check_liquidity s a r = (false, 0, LiqReason.unavailable)) ∧
    (∀ t, s.tao_in = some t → t ≤ 0 →
      check_liquidity s a r = (false, t, LiqReason.zeroLiquidity)) ∧
    (∀ t, s.tao_in = some t → 0 < t → t < a * r →
      check_liquidity s a r = (false, t, LiqReason.insufficient t (a * r))) ∧
    (∀ t, s.tao_in = some t → 0 < t → a * r ≤ t →
      check_liquidity s a r = (true, t, LiqReason.ok)) ∧
    check_liquidity s a r = check_liquidity s a r := by
  refine ⟨?_, ?_, ?_, ?_, rfl⟩
  · intro h; unfold check_liquidity; rw [h]
  · intro t h hle; unfold check_liquidity; rw [h]; simp [hle]
  · intro t h hpos hlt
    unfold check_liquidity; rw [h]; simp [not_le.mpr hpos, hlt]
  · intro t h hpos hge
    unfold check_liquidity; rw [h]; simp [not_le.mpr hpos, not_lt.mpr hge]

/-- C6 witness: the rules applied to a concrete low-liquidity candidate
and a concrete passing candidate. -/
theorem check_liquidity_rules_witness :
    check_liquidity subnetLow 1 10 = (false, 5, LiqReason.insufficient 5 (1 * 10)) ∧
      check_liquidity subnetTarget 1 10 = (true, 100, LiqReason.ok) :=
  ⟨(check_liquidity_rules subnetLow 1 10).2.2.1 5 rfl (by norm_num) (by norm_num),
    (check_liquidity_rules subnetTarget 1 10).2.2.2.1 100 rfl (by norm_num)
      (by norm_num)⟩

/-- C7: the attempted network order is the preferred network first, then
the fixed fallback list in its declared order with any duplicate of the
preferred network removed; for preferred network archive the order is
exactly archive, finney, subvortex. -/
theorem fallback_order_spec :
    networks_to_try "archive" = ["archive", "finney", "subvortex"] ∧
      ∀ p, (networks_to_try p).head? = some p ∧
        List.Sublist (networks_to_try p).tail FALLBACK_NETWORKS ∧
        ∀ n, n ∈ (networks_to_try p).tail ↔ (n ∈ FALLBACK_NETWORKS ∧ n ≠ p) := by
  refine ⟨rfl, ?_⟩
  intro p
  refine ⟨rfl, ?_, ?_⟩
  · show List.Sublist (FALLBACK_NETWORKS.filter (fun m => m ≠ p)) FALLBACK_NETWORKS
    exact List.filter_sublist FALLBACK_NETWORKS
  · intro n
    show n ∈ FALLBACK_NETWORKS.filter (fun m => m ≠ p) ↔ _
    rw [List.mem_filter]
    simp

/-- C7 witness: the concrete archive instance of the order theorem. -/
theorem fallback_order_spec_witness :
    networks_to_try "archive" = ["archive", "finney", "subvortex"] :=
  fallback_order_spec.1

/-- C8: every network in the attempted order consumes at most 3 attempts;
the connector fails overall exactly when all 3 attempts fail on every
network in the order; and on overall failure the trace shows 3 attempts
per network and the carried error is the error of the final attempt on
the last network. -/
theorem retry_bound_spec (f : String → Nat → Except String Unit) (p : String) :
    (∀ q ∈ (connect_to_bittensor f p).1, q.2 ≤ 3) ∧
      ((∃ e, (connect_to_bittensor f p).2 = Except.error e) ↔
        ∀ n ∈ networks_to_try p, ∀ k < 3, ∃ e, f n k = Except.error e) ∧
      (∀ e, (connect_to_bittensor f p).2 = Except.error e →
        (connect_to_bittensor f p).1 = (networks_to_try p).map (fun n => (n, 3)) ∧
          ∃ m, (networks_to_try p).getLast? = some m ∧ f m 2 = Except.error e) := by
  refine ⟨?_, ?_, ?_⟩
  · exact connectGo_count_le f (networks_to_try p) ""
  · rw [show connect_to_bittensor f p = connectGo f (networks_to_try p) "" from rfl,
      connectGo_fails_iff]
    constructor
    · intro h n hn k hk
      rcases h n hn with ⟨e, he⟩
      have hall := (tryConn_fails_iff (f n) 2 0).mp ⟨e, he⟩
      rcases hall k (by omega) with ⟨e0, he0⟩
      exact ⟨e0, by simpa using he0⟩
    · intro h n hn
      apply (tryConn_fails_iff (f n) 2 0).mpr
      intro j hj
      rcases h n hn j (by omega) with ⟨e, he⟩
      exact ⟨e, by simpa using he⟩
  · intro e he
    rcases connectGo_error_spec f (networks_to_try p) "" e he with ⟨htr, -, hlast⟩
    refine ⟨htr, ?_⟩
    have hsome : ((networks_to_try p).getLast?).isSome = true := by
      rw [List.getLast?_isSome]
      unfold networks_to_try
      simp
    rcases Option.isSome_iff_exists.mp hsome with ⟨m, hm⟩
    exact ⟨m, hm, hlast m hm⟩

/-- C8 witness: on an always-failing connection oracle every network in
the order consumes exactly 3 attempts and the overall error is the error
of the final attempt on the last network. -/
theorem retry_bound_spec_witness :
    (connect_to_bittensor alwaysDown "finney").1 =
        (networks_to_try "finney").map (fun n => (n, 3)) ∧
      ∃ m, (networks_to_try "finney").getLast? = some m ∧
        alwaysDown m 2 = Except.error "down" :=
  (retry_bound_spec alwaysDown "finney").2.2 "down" rfl

/-- C9: the connection close routine runs exactly once on every run in
which the connection was established, on every exit path, and does not
run at all when connection establishment fails. -/
theorem close_called_exactly_once (cfg : Config) (w : World) :
    (run cfg w).closes = if w.connect_ok = true then 1 else 0 := by
  unfold run
  by_cases h : w.connect_ok = true
  · rw [if_pos h, if_pos h]
  · rw [if_neg h, if_neg h]

/-- C9 witness: the close-once theorem at a concrete connected run. -/
theorem close_called_exactly_once_witness :
    (run cfgBoth worldGood).closes = 1 := by
  have h := close_called_exactly_once cfgBoth worldGood
  simpa [worldGood] using h

/-- C10: with positive stake amount and ratio, any candidate returned by
the whitelist selection passes check_liquidity with an ok reason, and on
a run in whitelist mode the stake phase of the selected candidate reduces
to the dry-run or stake-result outcome alone, so the liquidity graceful
skip is unreachable in whitelist mode. -/
theorem selected_candidate_passes_liquidity :
    (∀ (wl : List Int) (a r : ℚ) (l : List Subnet) (c : Subnet),
      0 < a → 0 < r → select_best_from_whitelist wl a r l = some c →
        (check_liquidity c a r).1 = true ∧
          (check_liquidity c a r).2.2 = LiqReason.ok) ∧
    (∀ (cfg : Config) (w : World) (c : Subnet),
      0 < cfg.stake_amount → 0 < cfg.min_liquidity_ratio →
      cfg.target_netuid = none →
      select_best_from_whitelist cfg.whitelist cfg.stake_amount
          cfg.min_liquidity_ratio w.subnets = some c →
      stake_phase cfg w c =
        (if cfg.dry_run = true then (0 : Nat) else
          match w.stake_result with
          | none => 1
          | some b => if b then 0 else 1)) := by
  have key : ∀ (wl : List Int) (a r : ℚ) (l : List Subnet) (c : Subnet),
      0 < a → 0 < r → select_best_from_whitelist wl a r l = some c →
      ∃ t, check_liquidity c a r = (true, t, LiqReason.ok) := by
    intro wl a r l c ha hr hc
    rcases select_some_spec wl a r l c hc with ⟨-, hsv, -, -⟩
    rcases (survives_iff wl a r c).mp hsv with ⟨-, p, hp, hpp, t, htao, hge⟩
    have htpos : 0 < t := lt_of_lt_of_le (mul_pos ha hr) hge
    refine ⟨t, ?_⟩
    unfold check_liquidity
    rw [htao]
    simp [not_le.mpr htpos, not_lt.mpr hge]
  constructor
  · intro wl a r l c ha hr hc
    rcases key wl a r l c ha hr hc with ⟨t, hkey⟩
    rw [hkey]
    exact ⟨rfl, rfl⟩
  · intro cfg w c ha hr ht hc
    rcases select_some_spec cfg.whitelist cfg.stake_amount cfg.min_liquidity_ratio
        w.subnets c hc with ⟨-, hsv, -, -⟩
    rcases (survives_iff cfg.whitelist cfg.stake_amount cfg.min_liquidity_ratio c).mp
        hsv with ⟨-, p, hp, -, -, -, -⟩
    rcases key cfg.whitelist cfg.stake_amount cfg.min_liquidity_ratio w.subnets c
        ha hr hc with ⟨t, hkey⟩
    have hliq : (check_liquidity c cfg.stake_amount cfg.min_liquidity_ratio).1 = true := by
      rw [hkey]
    unfold stake_phase
    rw [hp, hliq]
    simp

/-- C10 witness: the theorem applied to the concrete whitelist run whose
selected candidate is subnetA. -/
theorem selected_candidate_passes_liquidity_witness :
    ((check_liquidity subnetA 1 10).1 = true ∧
      (check_liquidity subnetA 1 10).2.2 = LiqReason.ok) ∧
      stake_phase cfgWhitelist worldAB subnetA =
        (if cfgWhitelist.dry_run = true then (0 : Nat) else
          match worldAB.stake_result with
          | none => 1
          | some b => if b then 0 else 1) :=
  ⟨selected_candidate_passes_liquidity.1 [1, 2] 1 10 [subnetA, subnetB] subnetA
      (by norm_num) (by norm_num)
      (by norm_num [select_best_from_whitelist, selectAux, survives, subnetScore,
        subnetA, subnetB]),
    selected_candidate_passes_liquidity.2 cfgWhitelist worldAB subnetA
      (by norm_num [cfgWhitelist]) (by norm_num [cfgWhitelist]) rfl
      (by norm_num [select_best_from_whitelist, selectAux, survives, subnetScore,
        subnetA, subnetB, cfgWhitelist, worldAB])⟩
